import Mathlib

/-!
Verification development for the tag-algebra core of the Object Tagger
add-on (`src/tagger_ui_addon.py`).

The Python module stores boolean "tags" as custom properties on scene
objects.  We give a shallow embedding: an object is its custom-property
dictionary, modelled as an association list from keys (character lists,
standing for Python strings) to values; the operations of the module
(`add_tag_to_objects`, `remove_tag_from_objects`, `toggle_tag_on_objects`,
`get_tags_on_selected_objects`, `TTAGS_OT_SelectByTag.execute`,
`TTAGS_OT_AddTagToPieConfig.execute`, `TTAGS_OT_MovePieTag.execute`) become
pure functions on that model.  Each definition is translated directly from
the corresponding Python function; host plumbing (the `bpy` context, UI
redraw, report messages) is abstracted to the data it reads and writes:
a list of objects, a selection flag per object, and the pie-menu list with
its active index.
-/

namespace Tagger

/-- Tag names and custom-property keys: Python strings, modelled as lists of
characters. -/
abbrev Key := List Char

/-- Values stored in an object's custom-property dictionary, as far as the
tagging code distinguishes them: Python ints, Python bools, and any other
value (strings, floats, ...), which the tag logic never treats as a tag
value.  Note the code's truthiness test
`(isinstance(v, int) and v == 1) or (isinstance(v, bool) and v is True)`
gives the same verdict on `True`/`False`/ints in Python (where `bool` is a
subclass of `int`) as the case split below. -/
inductive PVal where
  | pInt : Int → PVal
  | pBool : Bool → PVal
  | pStr : List Char → PVal
deriving DecidableEq

/-- An object, reduced to its custom-property dictionary: an association
list of key/value pairs (Python dict keys are unique; the operations below
never create a duplicate key). -/
abbrev Obj := List (Key × PVal)

/-- Dictionary lookup, `obj[k]` / `k in obj`: first matching entry. -/
def lookupProp : Obj → Key → Option PVal
  | [], _ => none
  | kv :: rest, k => if kv.1 = k then some kv.2 else lookupProp rest k

/-- Python `k in obj` on the custom-property dictionary. -/
def hasKey (o : Obj) (k : Key) : Bool := (lookupProp o k).isSome

/-- Dictionary assignment `obj[k] = v`: replace the value in place if the
key exists, otherwise append a new entry. -/
def setProp : Obj → Key → PVal → Obj
  | [], k, v => [(k, v)]
  | kv :: rest, k, v => if kv.1 = k then (k, v) :: rest else kv :: setProp rest k v

/-- Dictionary deletion `del obj[k]`: drop the entry with the given key. -/
def delProp : Obj → Key → Obj
  | [], _ => []
  | kv :: rest, k => if kv.1 = k then delProp rest k else kv :: delProp rest k

/-- The truthiness test the module applies to a stored value before
counting it as a tag:
`(isinstance(v, int) and v == 1) or (isinstance(v, bool) and v is True)`. -/
def truthyTagVal : PVal → Bool
  | .pInt n => n = 1
  | .pBool b => b
  | .pStr _ => false

/-- The Python constant `TAG_PREFIX = "tag_"`. -/
def TAG_PFX : Key := "tag_".toList

/-- `full_tag_name in obj and (truthy value)`: the object carries the (full,
prefixed) key with a value that counts as boolean-true.  This is the exact
condition tested in `toggle_tag_on_objects` and
`TTAGS_OT_SelectByTag.execute`. -/
def hasTagFull (o : Obj) (fk : Key) : Bool :=
  match lookupProp o fk with
  | some v => truthyTagVal v
  | none => false

/-- The ASCII whitespace characters stripped by Python's `str.strip()`
(Unicode whitespace is out of the model's scope; no claim exercises it). -/
def pyIsSpace (c : Char) : Bool :=
  c == ' ' || c == '\t' || c == '\n' || c == '\r' || c == '\x0b' || c == '\x0c'

/-- Left half of Python `str.strip()`: drop leading whitespace. -/
def stripL (l : List Char) : List Char := l.dropWhile pyIsSpace

/-- Right half of Python `str.strip()`: drop trailing whitespace. -/
def stripR (l : List Char) : List Char := (l.reverse.dropWhile pyIsSpace).reverse

/-- Python `s.strip()`: drop leading and trailing whitespace. -/
def pyStrip (l : List Char) : List Char := stripR (stripL l)

/-- The character map underlying `s.replace(" ", "_")`. -/
def spaceToUnderscore (c : Char) : Char := if c == ' ' then '_' else c

/-- Python `s.replace(" ", "_")`: with a single-character pattern this is a
character-wise map. -/
def replaceSpaces (l : List Char) : List Char := l.map spaceToUnderscore

/-- The module's canonicalization of a raw tag name,
`tag_name.strip().replace(" ", "_")`, shared verbatim by
`add_tag_to_objects`, `remove_tag_from_objects` and
`toggle_tag_on_objects`. -/
def sanitizeTagName (l : List Char) : List Char := replaceSpaces (pyStrip l)

/-- `add_tag_to_objects(objects, tag_name)` (src/tagger_ui_addon.py
lines 123-137): early (silent) return on an empty name or a name that
sanitizes to empty; otherwise set `TAG_PREFIX + name` to `True` on every
object. -/
def addTagToObjects (objs : List Obj) (tagName : Key) : List Obj :=
  if tagName = [] then objs
  else if sanitizeTagName tagName = [] then objs
  else
    objs.map (fun o => setProp o (TAG_PFX ++ sanitizeTagName tagName) (PVal.pBool true))

/-- `remove_tag_from_objects(objects, tag_name)` (lines 139-150): early
silent return on a blank name; otherwise delete the key from every object
that has it. -/
def removeTagFromObjects (objs : List Obj) (tagName : Key) : List Obj :=
  if tagName = [] then objs
  else if sanitizeTagName tagName = [] then objs
  else
    objs.map (fun o =>
      if hasKey o (TAG_PFX ++ sanitizeTagName tagName) then
        delProp o (TAG_PFX ++ sanitizeTagName tagName)
      else o)

/-- The `any_has_tag` test of `toggle_tag_on_objects` (lines 164-166):
some object carries the full key with a boolean-true value. -/
def anyHasTag (objs : List Obj) (fk : Key) : Bool :=
  objs.any (fun o => hasTagFull o fk)

/-- `toggle_tag_on_objects(objects, tag_name)` (lines 152-174): silent
return on a blank name or empty object list; otherwise, if any object
carries the tag (truthy value), delete the key from every object that has
the key at all, else set the key to `True` on every object. -/
def toggleTagOnObjects (objs : List Obj) (tagName : Key) : List Obj :=
  if tagName = [] ∨ objs = [] then objs
  else if sanitizeTagName tagName = [] then objs
  else
    if anyHasTag objs (TAG_PFX ++ sanitizeTagName tagName) then
      objs.map (fun o =>
        if hasKey o (TAG_PFX ++ sanitizeTagName tagName) then
          delProp o (TAG_PFX ++ sanitizeTagName tagName)
        else o)
    else
      objs.map (fun o => setProp o (TAG_PFX ++ sanitizeTagName tagName) (PVal.pBool true))

/-- The per-object tag-key set computed by the inner loop of
`get_tags_on_selected_objects` (lines 81-101): for each dictionary key
starting with `TAG_PREFIX`, the suffix after the prefix, kept when the
stored value is truthy and the suffix is non-empty (Python
`if is_actual_tag and tag_name_candidate`). -/
def objTagKeys (o : Obj) : List Key :=
  o.filterMap (fun kv =>
    if TAG_PFX.isPrefixOf kv.1 then
      if truthyTagVal kv.2 && !(kv.1.drop TAG_PFX.length).isEmpty then
        some (kv.1.drop TAG_PFX.length)
      else none
    else none)

/-- `sum(1 for obj_tags in object_tags_list if tag in obj_tags)`
(line 114): how many objects of the sequence carry the tag. -/
def countTag (objs : List Obj) (t : Key) : Nat :=
  objs.countP (fun o => decide (t ∈ objTagKeys o))

/-- Aggregate tag status `ALL` / `SOME` (the values of the `tags_status`
dictionary built in lines 112-118). -/
inductive TagStatus where
  | ALL
  | SOME
deriving DecidableEq

/-- The `tags_status` dictionary of `get_tags_on_selected_objects`
(lines 69-120), read as a function from tag keys to optional statuses:
`none` means the key is absent from the dictionary.  The source returns the
empty dict for an empty object list, iterates only over the union of the
per-object tag sets (so a key carried by zero objects is never entered),
and maps a key to `ALL` when its count equals the number of objects, else
to `SOME` when the count is positive. -/
def tagsStatus (objs : List Obj) (t : Key) : Option TagStatus :=
  if objs = [] then none
  else if countTag objs t = objs.length then some TagStatus.ALL
  else if 0 < countTag objs t then some TagStatus.SOME
  else none

/-- The `common_tags` set of `get_tags_on_selected_objects` (line 110),
read as a membership predicate: the intersection of every object's tag-key
set, empty for an empty object list. -/
def commonTags (objs : List Obj) (t : Key) : Bool :=
  !objs.isEmpty && objs.all (fun o => decide (t ∈ objTagKeys o))

/-- A scene object as `TTAGS_OT_SelectByTag.execute` sees it: its
custom-property dictionary plus its selection flag. -/
structure SceneObj where
  props : Obj
  selected : Bool
deriving DecidableEq

/-- The five selection modes of `TTAGS_OT_SelectByTag`. -/
inductive SelMode where
  | SET
  | ADD
  | SUBTRACT
  | FILTER_AND
  | FILTER_NAND
deriving DecidableEq

/-- `TTAGS_OT_SelectByTag.execute` (lines 432-494), reduced to its effect
on the selection flags.  An empty tag name cancels with the selection
untouched.  `SET` first deselects everything
(`bpy.ops.object.select_all(action='DESELECT')`), then selects every
object carrying the tag; `ADD` selects tagged objects not already
selected; `SUBTRACT` and `FILTER_NAND` deselect selected objects carrying
the tag; `FILTER_AND` deselects selected objects not carrying the tag.
The scene list stands for `bpy.data.objects`; `initial_selection` is the
`selected` flag of each entry.  (The active-object bookkeeping and report
messages are outside the data model.) -/
def selectByTag (scene : List SceneObj) (tagName : Key) (mode : SelMode) : List SceneObj :=
  if tagName = [] then scene
  else
    match mode with
    | SelMode.SET =>
        (scene.map (fun o => { o with selected := false })).map (fun o =>
          if hasTagFull o.props (TAG_PFX ++ tagName) then { o with selected := true } else o)
    | SelMode.ADD =>
        scene.map (fun o =>
          if hasTagFull o.props (TAG_PFX ++ tagName) && !o.selected then
            { o with selected := true }
          else o)
    | SelMode.SUBTRACT =>
        scene.map (fun o =>
          if o.selected && hasTagFull o.props (TAG_PFX ++ tagName) then
            { o with selected := false }
          else o)
    | SelMode.FILTER_AND =>
        scene.map (fun o =>
          if o.selected && !(hasTagFull o.props (TAG_PFX ++ tagName)) then
            { o with selected := false }
          else o)
    | SelMode.FILTER_NAND =>
        scene.map (fun o =>
          if o.selected && hasTagFull o.props (TAG_PFX ++ tagName) then
            { o with selected := false }
          else o)

/-- Modelled from the spec's mode table in section 4.2 (`select_by_tag`):
the selection flag each mode should leave on an object, written directly
from the five table rows, for comparison with the source-derived
`selectByTag`. -/
def specModeSelected (mode : SelMode) (fk : Key) (o : SceneObj) : Bool :=
  match mode with
  | SelMode.SET => hasTagFull o.props fk
  | SelMode.ADD => o.selected || hasTagFull o.props fk
  | SelMode.SUBTRACT => o.selected && !(hasTagFull o.props fk)
  | SelMode.FILTER_AND => o.selected && hasTagFull o.props fk
  | SelMode.FILTER_NAND => o.selected && !(hasTagFull o.props fk)

/-- Blender operator outcome, `{'FINISHED'}` / `{'CANCELLED'}`. -/
inductive OpResult where
  | FINISHED
  | CANCELLED
deriving DecidableEq

/-- `TTAGS_OT_AddTagToPieConfig.execute` (lines 510-533), reduced to its
effect on the pie-menu tag list.  The source first fetches `tag_to_add`
from the available-tags list at a bounds-checked index (cancelling on an
invalid index with the pie list untouched); we take the fetched name as
the argument.  A duplicate name cancels (`report({'INFO'}, ...)`), a full
list of 8 cancels (`report({'WARNING'}, ...)`), otherwise the name is
appended. -/
def addTagToPieConfig (pieTags : List Key) (tagToAdd : Key) : List Key × OpResult :=
  if tagToAdd ∈ pieTags then (pieTags, OpResult.CANCELLED)
  else if 8 ≤ pieTags.length then (pieTags, OpResult.CANCELLED)
  else (pieTags ++ [tagToAdd], OpResult.FINISHED)

/-- Direction argument of `TTAGS_OT_MovePieTag`. -/
inductive MoveDir where
  | UP
  | DOWN
deriving DecidableEq

/-- Insertion of an element at an index (clamping to the end), the effect
of Blender's `CollectionProperty.move` target position. -/
def insertAtIdx : List Key → Nat → Key → List Key
  | l, 0, x => x :: l
  | [], _ + 1, x => [x]
  | a :: l, n + 1, x => a :: insertAtIdx l n x

/-- Blender's `collection.move(i, j)`: remove the element at `i` and
re-insert it at `j` (no-op on an out-of-range source index). -/
def collMove (l : List Key) (i j : Nat) : List Key :=
  match l[i]? with
  | none => l
  | some x => insertAtIdx (l.eraseIdx i) j x

/-- `TTAGS_OT_MovePieTag.execute` (lines 595-609): state is the pie tag
list together with `active_pie_tag_index` (a host `IntProperty`, hence
`Int`).  Moving up is guarded by `if idx > 0`, moving down by
`if idx < len(pie_tags) - 1`; when the guard fails nothing is mutated and
the operator still returns `FINISHED`. -/
def movePieTag (pieTags : List Key) (idx : Int) (dir : MoveDir) : List Key × Int :=
  match dir with
  | MoveDir.UP =>
      if 0 < idx then (collMove pieTags idx.toNat (idx.toNat - 1), idx - 1)
      else (pieTags, idx)
  | MoveDir.DOWN =>
      if idx < (pieTags.length : Int) - 1 then
        (collMove pieTags idx.toNat (idx.toNat + 1), idx + 1)
      else (pieTags, idx)

/-- The error class named by the spec's failure semantics. -/
inductive EmptyNameError where
  | emptyName
deriving DecidableEq

/-- Modelled from the spec: sections 4.1 and 7 state that every tag
operation "fails with `EmptyNameError` when given a blank/whitespace-only
tag name".  The source defines no such exception and raises nothing; this
definition follows the spec's words (error exactly on a name that
sanitizes to empty, otherwise the source behaviour) so the two can be
compared. -/
def addTagToObjects_specFail (objs : List Obj) (tagName : Key) :
    Except EmptyNameError (List Obj) :=
  if sanitizeTagName tagName = [] then Except.error EmptyNameError.emptyName
  else Except.ok (addTagToObjects objs tagName)

/-- Observer: every object of the list lacks the key entirely. -/
def allKeyAbsent (objs : List Obj) (k : Key) : Bool :=
  objs.all (fun o => !(hasKey o k))

/-- Observer: every object of the list stores Python `True` under the key. -/
def allSetTrue (objs : List Obj) (k : Key) : Bool :=
  objs.all (fun o => decide (lookupProp o k = some (PVal.pBool true)))

/-- Observer: every object of the list carries the tag (truthy value). -/
def allTagged (objs : List Obj) (k : Key) : Bool :=
  objs.all (fun o => hasTagFull o k)

/-- Observer: the per-object tag membership bits, in list order. -/
def tagMask (objs : List Obj) (k : Key) : List Bool :=
  objs.map (fun o => hasTagFull o k)

/-- Sample tag name used by the concrete witnesses. -/
def tNameA : Key := "foo".toList

/-- The full storage key of `tNameA`. -/
def fkA : Key := TAG_PFX ++ sanitizeTagName tNameA

/-- Sample object carrying `tag_foo = True`. -/
def objTrueA : Obj := [(fkA, PVal.pBool true)]

/-- Sample object carrying `tag_foo = False` (key present, not a tag). -/
def objFalseA : Obj := [(fkA, PVal.pBool false), ("n".toList, PVal.pInt 7)]

/-- Sample object without the key. -/
def objNone : Obj := [("other".toList, PVal.pStr "x".toList)]

/-! ### Dictionary lemmas -/

theorem lookup_delProp (o : Obj) (k : Key) : lookupProp (delProp o k) k = none := by
  induction o with
  | nil => rfl
  | cons kv rest ih =>
    by_cases h : kv.1 = k
    · simp [delProp, h, ih]
    · simp [delProp, h, lookupProp, ih]

theorem lookup_setProp (o : Obj) (k : Key) (v : PVal) :
    lookupProp (setProp o k v) k = some v := by
  induction o with
  | nil => simp [setProp, lookupProp]
  | cons kv rest ih =>
    by_cases h : kv.1 = k
    · simp [setProp, h, lookupProp]
    · simp [setProp, h, lookupProp, ih]

theorem hasTagFull_removeFn (o : Obj) (k : Key) :
    hasTagFull (if hasKey o k then delProp o k else o) k = false := by
  by_cases h : hasKey o k
  · simp only [if_pos h, hasTagFull, lookup_delProp]
  · have hn : lookupProp o k = none := by
      cases hl : lookupProp o k
      · rfl
      · simp [hasKey, hl] at h
    simp only [if_neg h, hasTagFull, hn]

theorem hasTagFull_setTrue (o : Obj) (k : Key) :
    hasTagFull (setProp o k (PVal.pBool true)) k = true := by
  simp [hasTagFull, lookup_setProp, truthyTagVal]

/-! ### Toggle branch lemmas -/

theorem sanitize_nil : sanitizeTagName [] = [] := rfl

theorem toggle_eq_remove (objs : List Obj) (t : Key)
    (hs : sanitizeTagName t ≠ [])
    (hany : anyHasTag objs (TAG_PFX ++ sanitizeTagName t) = true) :
    toggleTagOnObjects objs t =
      objs.map (fun o =>
        if hasKey o (TAG_PFX ++ sanitizeTagName t) then
          delProp o (TAG_PFX ++ sanitizeTagName t)
        else o) := by
  have hne : objs ≠ [] := by
    rintro rfl
    simp [anyHasTag] at hany
  have ht : t ≠ [] := by
    rintro rfl
    exact hs sanitize_nil
  simp [toggleTagOnObjects, ht, hne, hs, hany]

theorem toggle_eq_add (objs : List Obj) (t : Key)
    (hne : objs ≠ []) (hs : sanitizeTagName t ≠ [])
    (hany : anyHasTag objs (TAG_PFX ++ sanitizeTagName t) = false) :
    toggleTagOnObjects objs t =
      objs.map (fun o => setProp o (TAG_PFX ++ sanitizeTagName t) (PVal.pBool true)) := by
  have ht : t ≠ [] := by
    rintro rfl
    exact hs sanitize_nil
  simp [toggleTagOnObjects, ht, hne, hs, hany]

theorem toggle_length (objs : List Obj) (t : Key) :
    (toggleTagOnObjects objs t).length = objs.length := by
  unfold toggleTagOnObjects
  split_ifs <;> simp

/-! ### Observer lemmas -/

theorem allKeyAbsent_map_remove (objs : List Obj) (k : Key) :
    allKeyAbsent
      (objs.map (fun o => if hasKey o k then delProp o k else o)) k = true := by
  rw [allKeyAbsent, List.all_map, List.all_eq_true]
  intro o _
  simp only [Function.comp]
  by_cases h : hasKey o k
  · rw [if_pos h]
    simp [hasKey, lookup_delProp]
  · rw [if_neg h]
    simpa using h

theorem allSetTrue_map_set (objs : List Obj) (k : Key) :
    allSetTrue (objs.map (fun o => setProp o k (PVal.pBool true))) k = true := by
  rw [allSetTrue, List.all_map, List.all_eq_true]
  intro o _
  simp [Function.comp, lookup_setProp]

theorem anyHasTag_map_remove (objs : List Obj) (k : Key) :
    anyHasTag
      (objs.map (fun o => if hasKey o k then delProp o k else o)) k = false := by
  rw [anyHasTag, List.any_map, List.any_eq_false]
  intro o _
  simp [Function.comp, hasTagFull_removeFn]

theorem anyHasTag_map_setTrue (objs : List Obj) (k : Key) (hne : objs ≠ []) :
    anyHasTag (objs.map (fun o => setProp o k (PVal.pBool true))) k = true := by
  rw [anyHasTag, List.any_map, List.any_eq_true]
  obtain ⟨o, ho⟩ := List.exists_mem_of_ne_nil _ hne
  exact ⟨o, ho, by simp [Function.comp, hasTagFull_setTrue]⟩

theorem tagMask_map_false (objs : List Obj) (k : Key) (f : Obj → Obj)
    (hf : ∀ o, hasTagFull (f o) k = false) :
    tagMask (objs.map f) k = List.replicate objs.length false := by
  rw [tagMask, List.map_map, List.eq_replicate_iff]
  refine ⟨by simp, ?_⟩
  intro b hb
  obtain ⟨o, _, rfl⟩ := List.mem_map.mp hb
  exact hf o

theorem tagMask_map_true (objs : List Obj) (k : Key) (f : Obj → Obj)
    (hf : ∀ o, hasTagFull (f o) k = true) :
    tagMask (objs.map f) k = List.replicate objs.length true := by
  rw [tagMask, List.map_map, List.eq_replicate_iff]
  refine ⟨by simp, ?_⟩
  intro b hb
  obtain ⟨o, _, rfl⟩ := List.mem_map.mp hb
  exact hf o

theorem allTagged_tagMask (objs : List Obj) (k : Key)
    (h : allTagged objs k = true) :
    tagMask objs k = List.replicate objs.length true := by
  rw [tagMask, List.eq_replicate_iff]
  refine ⟨by simp, ?_⟩
  intro b hb
  obtain ⟨o, ho, rfl⟩ := List.mem_map.mp hb
  exact List.all_eq_true.mp h o ho

theorem noneTagged_tagMask (objs : List Obj) (k : Key)
    (h : anyHasTag objs k = false) :
    tagMask objs k = List.replicate objs.length false := by
  rw [tagMask, List.eq_replicate_iff]
  refine ⟨by simp, ?_⟩
  intro b hb
  obtain ⟨o, ho, rfl⟩ := List.mem_map.mp hb
  have := List.any_eq_false.mp h o ho
  simpa using this

/-! ### Claim C1 -/

/-- C1: for every non-empty list of objects and every non-blank tag name,
`toggle_tag_on_objects` removes the tag key from every object in the list
when at least one object carries the tag with a boolean-true value
(regardless of whether each individual object had it), and otherwise sets
the tag key to `True` on every object in the list. -/
theorem claim_C1_toggle_semantics (objs : List Obj) (t : Key)
    (hne : objs ≠ []) (hs : sanitizeTagName t ≠ []) :
    (anyHasTag objs (TAG_PFX ++ sanitizeTagName t) = true →
       allKeyAbsent (toggleTagOnObjects objs t) (TAG_PFX ++ sanitizeTagName t) = true) ∧
    (anyHasTag objs (TAG_PFX ++ sanitizeTagName t) = false →
       allSetTrue (toggleTagOnObjects objs t) (TAG_PFX ++ sanitizeTagName t) = true) := by
  constructor
  · intro h
    rw [toggle_eq_remove objs t hs h]
    exact allKeyAbsent_map_remove objs _
  · intro h
    rw [toggle_eq_add objs t hne hs h]
    exact allSetTrue_map_set objs _

/-- Witness for C1 at a concrete mixed-state input: one object carries the
tag, one has the key with value `False`, one lacks the key; the toggle
removes the key from all of them. -/
theorem claim_C1_witness :
    ([objTrueA, objFalseA, objNone] : List Obj) ≠ [] ∧
    sanitizeTagName tNameA ≠ [] ∧
    allKeyAbsent (toggleTagOnObjects [objTrueA, objFalseA, objNone] tNameA)
      (TAG_PFX ++ sanitizeTagName tNameA) = true :=
  ⟨by decide, by decide,
   (claim_C1_toggle_semantics [objTrueA, objFalseA, objNone] tNameA
      (by decide) (by decide)).1 (by decide)⟩

/-! ### Claim C10 -/

/-- C10: when `toggle_tag_on_objects` takes its removal branch (at least
one object carries the tag with a boolean-true value), it deletes the key
from every object on which the key is present at all — the per-object
action is exactly `if full_tag_name in obj: del obj[full_tag_name]` — so
objects whose stored value is not boolean-true (such as `False`) also lose
the key, and afterwards no object in the list has the key. -/
theorem claim_C10_removal_deletes_key (objs : List Obj) (t : Key)
    (hs : sanitizeTagName t ≠ [])
    (hany : anyHasTag objs (TAG_PFX ++ sanitizeTagName t) = true) :
    toggleTagOnObjects objs t =
      objs.map (fun o =>
        if hasKey o (TAG_PFX ++ sanitizeTagName t) then
          delProp o (TAG_PFX ++ sanitizeTagName t)
        else o) ∧
    allKeyAbsent (toggleTagOnObjects objs t) (TAG_PFX ++ sanitizeTagName t) = true := by
  refine ⟨toggle_eq_remove objs t hs hany, ?_⟩
  rw [toggle_eq_remove objs t hs hany]
  exact allKeyAbsent_map_remove objs _

/-- Witness for C10: `objFalseA` stores `False` under the key (it does not
count as tagged), yet the removal branch strips its key too. -/
theorem claim_C10_witness :
    sanitizeTagName tNameA ≠ [] ∧
    anyHasTag [objTrueA, objFalseA] (TAG_PFX ++ sanitizeTagName tNameA) = true ∧
    allKeyAbsent (toggleTagOnObjects [objTrueA, objFalseA] tNameA)
      (TAG_PFX ++ sanitizeTagName tNameA) = true :=
  ⟨by decide, by decide,
   (claim_C10_removal_deletes_key [objTrueA, objFalseA] tNameA
      (by decide) (by decide)).2⟩

/-! ### Claim C4 -/

/-- C4 counterexample: the claim says the operations fail by raising
`EmptyNameError` on a blank name rather than returning silently.  At the
concrete blank name `" "` the spec-modelled operation errors, but the
source operations complete normally and return the object list unchanged —
the source has no raise at all on this path (it prints a warning and
returns), so its total-function embedding diverges from the spec-mandated
error. -/
theorem claim_C4_counterexample :
    addTagToObjects_specFail [objNone] [' '] = Except.error EmptyNameError.emptyName ∧
    addTagToObjects_specFail [objNone] [' '] ≠
      Except.ok (addTagToObjects [objNone] [' ']) ∧
    addTagToObjects [objNone] [' '] = [objNone] ∧
    removeTagFromObjects [objNone] [' '] = [objNone] ∧
    toggleTagOnObjects [objNone] [' '] = [objNone] := by
  refine ⟨rfl, ?_, rfl, rfl, rfl⟩
  rw [show addTagToObjects_specFail [objNone] [' ']
        = Except.error EmptyNameError.emptyName from rfl,
      show addTagToObjects [objNone] [' '] = [objNone] from rfl]
  simp

/-- C4 (amended): every tag operation (add, remove, toggle), when given a
blank or whitespace-only tag name, returns silently — no exception exists
in the source; `add` and `toggle` print a warning — and leaves every
object's custom properties unchanged. -/
theorem claim_C4_blank_name_silent (objs : List Obj) (tagName : Key)
    (hblank : sanitizeTagName tagName = []) :
    addTagToObjects objs tagName = objs ∧
    removeTagFromObjects objs tagName = objs ∧
    toggleTagOnObjects objs tagName = objs := by
  refine ⟨?_, ?_, ?_⟩ <;>
    simp [addTagToObjects, removeTagFromObjects, toggleTagOnObjects, hblank]

/-- Witness for the amended C4 at the whitespace-only name `" "`. -/
theorem claim_C4_witness :
    sanitizeTagName [' '] = [] ∧
    addTagToObjects [objTrueA] [' '] = [objTrueA] ∧
    removeTagFromObjects [objTrueA] [' '] = [objTrueA] ∧
    toggleTagOnObjects [objTrueA] [' '] = [objTrueA] :=
  ⟨by decide,
   (claim_C4_blank_name_silent [objTrueA] [' '] (by decide)).1,
   (claim_C4_blank_name_silent [objTrueA] [' '] (by decide)).2.1,
   (claim_C4_blank_name_silent [objTrueA] [' '] (by decide)).2.2⟩

/-! ### Claim C7 -/

/-- C7: the pie-menu append preserves the no-duplicates and length-at-most-8
invariants; appending a name already present, or appending when the list
already holds 8 entries, cancels (no exception — the embedding is total)
and leaves the list unchanged. -/
theorem claim_C7_pie_append (pieTags : List Key) (tagToAdd : Key)
    (hnd : pieTags.Nodup) (hlen : pieTags.length ≤ 8) :
    (addTagToPieConfig pieTags tagToAdd).1.Nodup ∧
    (addTagToPieConfig pieTags tagToAdd).1.length ≤ 8 ∧
    (tagToAdd ∈ pieTags →
      addTagToPieConfig pieTags tagToAdd = (pieTags, OpResult.CANCELLED)) ∧
    (pieTags.length = 8 →
      addTagToPieConfig pieTags tagToAdd = (pieTags, OpResult.CANCELLED)) := by
  by_cases hmem : tagToAdd ∈ pieTags
  · simp [addTagToPieConfig, hmem, hnd, hlen]
  · by_cases hcap : 8 ≤ pieTags.length
    · refine ⟨?_, ?_, ?_, ?_⟩
      · simpa [addTagToPieConfig, hmem, hcap] using hnd
      · simpa [addTagToPieConfig, hmem, hcap] using hlen
      · intro h; exact absurd h hmem
      · intro _; simp [addTagToPieConfig, hmem, hcap]
    · refine ⟨?_, ?_, ?_, ?_⟩
      · simp [addTagToPieConfig, hmem, hcap, List.nodup_append, hnd,
          List.disjoint_singleton]
      · have : pieTags.length < 8 := by omega
        simp [addTagToPieConfig, hmem, hcap]
        omega
      · intro h; exact absurd h hmem
      · intro h; exact absurd (by omega : 8 ≤ pieTags.length) hcap

/-- Witness for C7 at a concrete two-element list with a fresh tag. -/
theorem claim_C7_witness :
    ([['a'], ['b']] : List Key).Nodup ∧
    ([['a'], ['b']] : List Key).length ≤ 8 ∧
    (addTagToPieConfig [['a'], ['b']] ['c']).1.Nodup ∧
    (addTagToPieConfig [['a'], ['b']] ['c']).1.length ≤ 8 :=
  ⟨by decide, by decide,
   (claim_C7_pie_append [['a'], ['b']] ['c'] (by decide) (by decide)).1,
   (claim_C7_pie_append [['a'], ['b']] ['c'] (by decide) (by decide)).2.1⟩

/-! ### Claim C8 -/

/-- C8: moving the first pie-menu entry up, or the last entry down, is a
no-op: the guard (`if idx > 0`, `if idx < len - 1`) fails before any
mutation, and both the list order and the active index are returned
unchanged. -/
theorem claim_C8_move_boundary (pieTags : List Key) (idx : Int) :
    (idx = 0 → movePieTag pieTags idx MoveDir.UP = (pieTags, idx)) ∧
    (idx = (pieTags.length : Int) - 1 →
      movePieTag pieTags idx MoveDir.DOWN = (pieTags, idx)) := by
  constructor
  · rintro rfl
    simp [movePieTag]
  · rintro rfl
    simp [movePieTag]

/-- Witness for C8 on a concrete two-element pie list. -/
theorem claim_C8_witness :
    movePieTag [['a'], ['b']] 0 MoveDir.UP = ([['a'], ['b']], 0) ∧
    movePieTag [['a'], ['b']] 1 MoveDir.DOWN = ([['a'], ['b']], 1) :=
  ⟨(claim_C8_move_boundary [['a'], ['b']] 0).1 rfl,
   (claim_C8_move_boundary [['a'], ['b']] 1).2 (by decide)⟩

/-! ### Claim C2 -/

/-- C2: for every tag key and every mode, the selection computed by
`TTAGS_OT_SelectByTag.execute` is exactly the one given by the spec's mode
table: `SET` selects precisely the tagged objects, `ADD` the union of the
current selection and the tagged objects, `SUBTRACT` the current selection
minus its tagged members, `FILTER_AND` the selected objects carrying the
tag, `FILTER_NAND` the selected objects not carrying the tag. -/
theorem claim_C2_select_modes (scene : List SceneObj) (t : Key) (mode : SelMode)
    (ht : t ≠ []) :
    selectByTag scene t mode =
      scene.map (fun o => { o with selected := specModeSelected mode (TAG_PFX ++ t) o }) := by
  cases mode <;>
    simp only [selectByTag, if_neg ht, List.map_map] <;>
    refine List.map_congr_left ?_ <;>
    rintro ⟨p, s⟩ _ <;>
    cases h : hasTagFull p (TAG_PFX ++ t) <;> cases s <;>
    simp [specModeSelected, h, Function.comp]

/-- Witness for C2: `ADD` mode on a scene with one unselected tagged object
and one selected untagged object selects both. -/
theorem claim_C2_witness :
    selectByTag [⟨objTrueA, false⟩, ⟨objNone, true⟩] (sanitizeTagName tNameA)
      SelMode.ADD = [⟨objTrueA, true⟩, ⟨objNone, true⟩] :=
  (claim_C2_select_modes [⟨objTrueA, false⟩, ⟨objNone, true⟩]
      (sanitizeTagName tNameA) SelMode.ADD (by decide)).trans (by decide)

/-! ### Claim C3 -/

/-- C3: for a sequence of N objects, the `tags_status` mapping sends a key
to `ALL` iff exactly N objects carry it, to `SOME` iff strictly between 0
and N objects carry it, contains no key carried by zero objects, and is
empty for the empty sequence. -/
theorem claim_C3_aggregate_status (objs : List Obj) (t : Key) :
    (objs ≠ [] →
      ((tagsStatus objs t = some TagStatus.ALL ↔ countTag objs t = objs.length) ∧
       (tagsStatus objs t = some TagStatus.SOME ↔
          0 < countTag objs t ∧ countTag objs t < objs.length) ∧
       (countTag objs t = 0 → tagsStatus objs t = none))) ∧
    tagsStatus [] t = none := by
  constructor
  · intro hne
    have hle : countTag objs t ≤ objs.length := List.countP_le_length _
    have hlen : objs.length ≠ 0 := by
      simpa [List.length_eq_zero] using hne
    refine ⟨?_, ?_, ?_⟩ <;>
      simp only [tagsStatus, if_neg hne] <;>
      split_ifs with h1 h2 <;>
      simp_all <;> omega
  · rfl

/-- Witness for C3 on a two-object sequence where exactly one object
carries the tag. -/
theorem claim_C3_witness :
    ([objTrueA, objNone] : List Obj) ≠ [] ∧
    (tagsStatus [objTrueA, objNone] tNameA = some TagStatus.SOME ↔
      0 < countTag [objTrueA, objNone] tNameA ∧
      countTag [objTrueA, objNone] tNameA < ([objTrueA, objNone] : List Obj).length) :=
  ⟨by decide, ((claim_C3_aggregate_status [objTrueA, objNone] tNameA).1 (by decide)).2.1⟩

/-! ### Claim C6 -/

/-- C6: for every non-empty object collection, every common tag (member of
the intersection of all per-object tag sets) has an entry in the
`tags_status` mapping, and every key mapped to `ALL` is a common tag. -/
theorem claim_C6_common_tags (objs : List Obj) (t : Key) (hne : objs ≠ []) :
    (commonTags objs t = true → (tagsStatus objs t).isSome = true) ∧
    (tagsStatus objs t = some TagStatus.ALL → commonTags objs t = true) := by
  constructor
  · intro h
    have hall : ∀ o ∈ objs, decide (t ∈ objTagKeys o) = true := by
      rw [commonTags, Bool.and_eq_true, List.all_eq_true] at h
      exact h.2
    have hc : countTag objs t = objs.length := List.countP_eq_length.mpr hall
    simp [tagsStatus, hne, hc]
  · intro h
    simp only [tagsStatus, if_neg hne] at h
    by_cases h1 : countTag objs t = objs.length
    · have hall := List.countP_eq_length.mp h1
      simp only [commonTags, Bool.and_eq_true, List.all_eq_true]
      refine ⟨?_, hall⟩
      simpa [List.isEmpty_iff] using hne
    · rw [if_neg h1] at h
      split_ifs at h with h2
      all_goals simp at h

/-- Witness for C6 on a collection where the tag is common to all objects. -/
theorem claim_C6_witness :
    ([objTrueA, objTrueA] : List Obj) ≠ [] ∧
    commonTags [objTrueA, objTrueA] tNameA = true ∧
    (tagsStatus [objTrueA, objTrueA] tNameA).isSome = true :=
  ⟨by decide, by decide,
   (claim_C6_common_tags [objTrueA, objTrueA] tNameA (by decide)).1 (by decide)⟩

/-! ### Claim C5 -/

/-- C5: for a non-empty object list in a uniform initial state for the tag
(all objects carry it, or none does), toggling twice restores the original
per-object tag state; for a mixed initial state (some but not all carry
it), toggling twice does not restore it — the first call clears the tag on
every object and the second sets it on every object. -/
theorem claim_C5_toggle_twice (objs : List Obj) (t : Key)
    (hne : objs ≠ []) (hs : sanitizeTagName t ≠ []) :
    ((allTagged objs (TAG_PFX ++ sanitizeTagName t) = true ∨
      anyHasTag objs (TAG_PFX ++ sanitizeTagName t) = false) →
       tagMask (toggleTagOnObjects (toggleTagOnObjects objs t) t)
           (TAG_PFX ++ sanitizeTagName t) =
         tagMask objs (TAG_PFX ++ sanitizeTagName t)) ∧
    ((anyHasTag objs (TAG_PFX ++ sanitizeTagName t) = true ∧
      allTagged objs (TAG_PFX ++ sanitizeTagName t) = false) →
       tagMask (toggleTagOnObjects objs t) (TAG_PFX ++ sanitizeTagName t) =
         List.replicate objs.length false ∧
       tagMask (toggleTagOnObjects (toggleTagOnObjects objs t) t)
           (TAG_PFX ++ sanitizeTagName t) =
         List.replicate objs.length true ∧
       tagMask (toggleTagOnObjects (toggleTagOnObjects objs t) t)
           (TAG_PFX ++ sanitizeTagName t) ≠
         tagMask objs (TAG_PFX ++ sanitizeTagName t)) := by
  have hlen1 : (toggleTagOnObjects objs t).length = objs.length := toggle_length objs t
  have hne1 : toggleTagOnObjects objs t ≠ [] := by
    intro h
    apply hne
    rw [← List.length_eq_zero, ← hlen1, h]
    rfl
  constructor
  · rintro (hall | hnone)
    · have hany : anyHasTag objs (TAG_PFX ++ sanitizeTagName t) = true := by
        obtain ⟨o, ho⟩ := List.exists_mem_of_ne_nil _ hne
        rw [anyHasTag, List.any_eq_true]
        exact ⟨o, ho, List.all_eq_true.mp hall o ho⟩
      have h1 := toggle_eq_remove objs t hs hany
      have hany1 : anyHasTag (toggleTagOnObjects objs t)
          (TAG_PFX ++ sanitizeTagName t) = false := by
        rw [h1]; exact anyHasTag_map_remove objs _
      rw [toggle_eq_add _ t hne1 hs hany1]
      rw [tagMask_map_true _ _ _ (fun o => hasTagFull_setTrue o _),
          hlen1, allTagged_tagMask objs _ hall]
    · have h1 := toggle_eq_add objs t hne hs hnone
      have hany1 : anyHasTag (toggleTagOnObjects objs t)
          (TAG_PFX ++ sanitizeTagName t) = true := by
        rw [h1]; exact anyHasTag_map_setTrue objs _ hne
      rw [toggle_eq_remove _ t hs hany1]
      rw [tagMask_map_false _ _ _ (fun o => hasTagFull_removeFn _ _),
          hlen1, noneTagged_tagMask objs _ hnone]
  · rintro ⟨hany, hnall⟩
    have h1 := toggle_eq_remove objs t hs hany
    have hmask1 : tagMask (toggleTagOnObjects objs t) (TAG_PFX ++ sanitizeTagName t) =
        List.replicate objs.length false := by
      rw [h1]; exact tagMask_map_false _ _ _ (fun o => hasTagFull_removeFn _ _)
    have hany1 : anyHasTag (toggleTagOnObjects objs t)
        (TAG_PFX ++ sanitizeTagName t) = false := by
      rw [h1]; exact anyHasTag_map_remove objs _
    have hmask2 : tagMask (toggleTagOnObjects (toggleTagOnObjects objs t) t)
        (TAG_PFX ++ sanitizeTagName t) = List.replicate objs.length true := by
      rw [toggle_eq_add _ t hne1 hs hany1]
      rw [tagMask_map_true _ _ _ (fun o => hasTagFull_setTrue o _), hlen1]
    refine ⟨hmask1, hmask2, ?_⟩
    intro heq
    obtain ⟨o, ho, hfo⟩ : ∃ o ∈ objs,
        hasTagFull o (TAG_PFX ++ sanitizeTagName t) = false := by
      rcases List.all_eq_false.mp hnall with ⟨o, ho, hf⟩
      exact ⟨o, ho, by simpa using hf⟩
    have hmem : (false : Bool) ∈ tagMask objs (TAG_PFX ++ sanitizeTagName t) := by
      rw [tagMask]
      exact List.mem_map.mpr ⟨o, ho, hfo⟩
    rw [← heq, hmask2] at hmem
    rcases List.mem_replicate.mp hmem with ⟨-, hfalse⟩
    exact Bool.false_ne_true hfalse

/-- Witness for C5: a uniform all-tagged singleton list returns to its
original tag state after a double toggle. -/
theorem claim_C5_witness :
    ([objTrueA] : List Obj) ≠ [] ∧
    sanitizeTagName tNameA ≠ [] ∧
    tagMask (toggleTagOnObjects (toggleTagOnObjects [objTrueA] tNameA) tNameA)
        (TAG_PFX ++ sanitizeTagName tNameA) =
      tagMask [objTrueA] (TAG_PFX ++ sanitizeTagName tNameA) :=
  ⟨by decide, by decide,
   (claim_C5_toggle_twice [objTrueA] tNameA (by decide) (by decide)).1
     (Or.inl (by decide))⟩

/-! ### String lemmas for canonicalization -/

theorem pyIsSpace_of_map_space {c : Char}
    (h : pyIsSpace (spaceToUnderscore c) = true) : pyIsSpace c = true := by
  by_cases hc : c == ' '
  · have hc' : c = ' ' := by simpa using hc
    subst hc'
    decide
  · rwa [spaceToUnderscore, if_neg hc] at h

theorem length_dropWhile_le (p : Char → Bool) (l : List Char) :
    (l.dropWhile p).length ≤ l.length := by
  induction l with
  | nil => simp
  | cons c rest ih =>
    by_cases hc : p c = true
    · rw [List.dropWhile_cons, if_pos hc]
      exact le_trans ih (by simp)
    · rw [List.dropWhile_cons, if_neg hc]

theorem fixed_cons {p : Char → Bool} {c : Char} {rest : List Char}
    (h : (c :: rest).dropWhile p = c :: rest) : p c = false := by
  by_cases hc : p c = true
  · rw [List.dropWhile_cons, if_pos hc] at h
    have hlen := congrArg List.length h
    have hle := length_dropWhile_le p rest
    simp at hlen
    omega
  · simpa using hc

theorem dropWhile_idem (p : Char → Bool) (l : List Char) :
    (l.dropWhile p).dropWhile p = l.dropWhile p := by
  induction l with
  | nil => rfl
  | cons c rest ih =>
    by_cases hc : p c = true
    · rw [List.dropWhile_cons, if_pos hc]
      exact ih
    · rw [List.dropWhile_cons, if_neg hc, List.dropWhile_cons, if_neg hc]

theorem fixed_map {l : List Char} (h : l.dropWhile pyIsSpace = l) :
    (l.map spaceToUnderscore).dropWhile pyIsSpace = l.map spaceToUnderscore := by
  cases l with
  | nil => rfl
  | cons c rest =>
    have hc : pyIsSpace c = false := fixed_cons h
    have hfc : ¬ pyIsSpace (spaceToUnderscore c) = true := by
      intro hx
      have hx' := pyIsSpace_of_map_space hx
      rw [hc] at hx'
      exact Bool.false_ne_true hx'
    rw [List.map_cons, List.dropWhile_cons, if_neg hfc]

theorem dropWhile_append_last {p : Char → Bool} {c : Char} (hc : p c = false)
    (xs : List Char) :
    ∃ ys : List Char, (xs ++ [c]).dropWhile p = ys ++ [c] := by
  induction xs with
  | nil =>
    refine ⟨[], ?_⟩
    rw [List.nil_append, List.dropWhile_cons, if_neg (by simp [hc])]
  | cons a rest ih =>
    by_cases ha : p a = true
    · obtain ⟨ys, hy⟩ := ih
      refine ⟨ys, ?_⟩
      rw [List.cons_append, List.dropWhile_cons, if_pos ha]
      exact hy
    · refine ⟨a :: rest, ?_⟩
      rw [List.cons_append, List.dropWhile_cons, if_neg ha]

theorem fixed_stripR {l : List Char} (h : l.dropWhile pyIsSpace = l) :
    (stripR l).dropWhile pyIsSpace = stripR l := by
  cases l with
  | nil => rfl
  | cons c rest =>
    have hc : pyIsSpace c = false := fixed_cons h
    obtain ⟨ys, hy⟩ := dropWhile_append_last hc rest.reverse
    rw [stripR, List.reverse_cons, hy, List.reverse_append]
    simp only [List.reverse_cons, List.reverse_nil, List.nil_append,
      List.singleton_append]
    rw [List.dropWhile_cons, if_neg (by simp [hc])]

theorem replace_idem (l : List Char) :
    replaceSpaces (replaceSpaces l) = replaceSpaces l := by
  simp only [replaceSpaces, List.map_map]
  apply List.map_congr_left
  intro c _
  simp only [Function.comp]
  by_cases hc : c == ' '
  · have hc' : c = ' ' := by simpa using hc
    subst hc'
    decide
  · have heq : spaceToUnderscore c = c := by
      rw [spaceToUnderscore, if_neg hc]
    rw [heq]
    exact heq

theorem strip_replace_fixed (s : List Char) :
    pyStrip (replaceSpaces (pyStrip s)) = replaceSpaces (pyStrip s) := by
  have hfixL : (pyStrip s).dropWhile pyIsSpace = pyStrip s :=
    fixed_stripR (dropWhile_idem pyIsSpace s)
  have hrev : (pyStrip s).reverse = (stripL s).reverse.dropWhile pyIsSpace := by
    simp [pyStrip, stripR]
  have hfixRrev : (pyStrip s).reverse.dropWhile pyIsSpace = (pyStrip s).reverse := by
    rw [hrev]
    exact dropWhile_idem _ _
  have h1 : (replaceSpaces (pyStrip s)).dropWhile pyIsSpace
      = replaceSpaces (pyStrip s) := fixed_map hfixL
  have h2 : stripR (replaceSpaces (pyStrip s)) = replaceSpaces (pyStrip s) := by
    rw [stripR]
    have hrw : (replaceSpaces (pyStrip s)).reverse
        = (pyStrip s).reverse.map spaceToUnderscore := by
      rw [replaceSpaces, ← List.map_reverse]
    rw [hrw, fixed_map hfixRrev, List.map_reverse, List.reverse_reverse]
    rfl
  calc pyStrip (replaceSpaces (pyStrip s))
      = stripR ((replaceSpaces (pyStrip s)).dropWhile pyIsSpace) := rfl
    _ = stripR (replaceSpaces (pyStrip s)) := by rw [h1]
    _ = replaceSpaces (pyStrip s) := h2

/-! ### Claim C9 -/

/-- C9: canonicalization (`strip()` then `replace(" ", "_")`) is
idempotent: for every input whose canonical form is non-empty,
canonicalizing twice equals canonicalizing once. -/
theorem claim_C9_canonicalize_idem (x : List Char)
    (_h : sanitizeTagName x ≠ []) :
    sanitizeTagName (sanitizeTagName x) = sanitizeTagName x := by
  calc sanitizeTagName (sanitizeTagName x)
      = replaceSpaces (pyStrip (replaceSpaces (pyStrip x))) := rfl
    _ = replaceSpaces (replaceSpaces (pyStrip x)) := by rw [strip_replace_fixed]
    _ = replaceSpaces (pyStrip x) := replace_idem _
    _ = sanitizeTagName x := rfl

/-- Witness for C9 at the concrete raw name `" a b "`. -/
theorem claim_C9_witness :
    sanitizeTagName (" a b ".toList) ≠ [] ∧
    sanitizeTagName (sanitizeTagName (" a b ".toList)) =
      sanitizeTagName (" a b ".toList) :=
  ⟨by decide, claim_C9_canonicalize_idem (" a b ".toList) (by decide)⟩

end Tagger
